import Mathlib

/-!
Verification of the job-orchestration core of `scripts/python/comfyui_generate.py`.

The Python source is shallowly embedded: pure computations become Lean
functions; effectful steps (clock reads, filesystem probes, HTTP calls)
become explicit parameters describing the outcome of each external call.
Durations (Python floats) are modelled as rationals.
-/

/-! ## Job model

A job in the script is a dict with keys `character`, `workflow`, `seed` and
optionally `scene` and `dest_name`.  An absent or empty `scene` is modelled
by the empty string, matching `job.get("scene")` falsiness in `_job_key`. -/

structure Job where
  character : String
  workflow : String
  seed : String
  scene : String := ""
  dest_name : Option String := none
  dest_dir : Option String := none
deriving DecidableEq, Repr

/-! ### Python string primitives

The Lean core string functions (`splitOn`, `trim`, `replace`, ...) are
defined by well-founded recursion over byte positions and do not reduce
inside the kernel, so the Python string operations the script uses are
embedded structurally over the character list. -/

/-- ASCII whitespace as stripped by Python `str.strip()` (the script only
ever strips spaces around scene names and config values). -/
def isSpaceChar (c : Char) : Bool := c = ' ' ∨ c = '\t' ∨ c = '\n' ∨ c = '\r'

def dropLeading : List Char → List Char
  | [] => []
  | c :: rest => if isSpaceChar c then dropLeading rest else c :: rest

/-- Python `s.strip()`. -/
def pyStrip (s : String) : String :=
  String.mk ((dropLeading ((dropLeading s.data).reverse)).reverse)

def splitOnCharAux (sep : Char) : List Char → List Char → List (List Char)
  | [], acc => [acc.reverse]
  | c :: rest, acc =>
    if c = sep then acc.reverse :: splitOnCharAux sep rest []
    else splitOnCharAux sep rest (c :: acc)

/-- Python `s.split(sep)` for a one-character separator (empty pieces are
kept, and splitting the empty string yields `[""]`). -/
def pySplitChar (s : String) (sep : Char) : List String :=
  (splitOnCharAux sep s.data []).map String.mk

/-- Python `s.upper()`. -/
def pyUpper (s : String) : String := String.mk (s.data.map Char.toUpper)

/-- Python `s.lower()`. -/
def pyLower (s : String) : String := String.mk (s.data.map Char.toLower)

def leadsWith : List Char → List Char → Bool
  | [], _ => true
  | _ :: _, [] => false
  | a :: as, b :: bs => a = b && leadsWith as bs

/-- Python `s.startswith(p)`. -/
def pyStartsWith (s p : String) : Bool := leadsWith p.data s.data

/-- Python slicing `s[n:]`. -/
def pyDrop (s : String) (n : Nat) : String := String.mk (s.data.drop n)

def replChars (pat rep : List Char) : Nat → List Char → List Char
  | 0, cs => cs
  | _ + 1, [] => []
  | fuel + 1, c :: rest =>
    if pat ≠ [] ∧ leadsWith pat (c :: rest) then
      rep ++ replChars pat rep fuel ((c :: rest).drop pat.length)
    else c :: replChars pat rep fuel rest

/-- Python `s.replace(pat, rep)`: left-to-right, non-overlapping. -/
def pyReplace (s pat rep : String) : String :=
  String.mk (replChars pat.data rep.data s.data.length s.data)

/-- Python `PurePath.stem` for ordinary file names: the final `/`-separated
component without its last `.`-extension (e.g. `"bj-api.json"` ↦ `"bj-api"`). -/
def pathStem (p : String) : String :=
  let name := (pySplitChar p '/').getLastD ""
  let parts := pySplitChar name '.'
  if parts.length ≤ 1 then name else String.intercalate "." parts.dropLast

/-- Python `Path(workflow).stem.replace("-api", "")`, used to derive a
scene name from a workflow file name. -/
def workflowShort (workflow : String) : String :=
  pyReplace (pathStem workflow) "-api" ""

/-- Source `_job_key(job)`:
`character + "/" + (scene or derived-workflow-name)`. -/
def _job_key (job : Job) : String :=
  let scene := if job.scene = "" then workflowShort job.workflow else job.scene
  job.character ++ "/" ++ scene

/-! ## Progress ledger

`progress.json` holds `{"started": ..., "jobs": {key: entry}}`.  A ledger
entry is a dict whose key set depends on the status; optional fields model
the keys only some statuses write.  The `jobs` dict is modelled as an
insertion-ordered association list, matching Python dict semantics. -/

structure Entry where
  status : String
  character : String
  scene : String
  workflow : String
  started : String
  finished : Option String := none
  failedAt : Option String := none
  duration_s : Option ℚ := none
  files : Option (List String) := none
  error : Option String := none
deriving DecidableEq, Repr

structure Ledger where
  started : String
  jobs : List (String × Entry)
deriving DecidableEq, Repr

/-- Python dict assignment `d[k] = v`: overwrite in place, else append. -/
def setKV (l : List (String × Entry)) (k : String) (v : Entry) : List (String × Entry) :=
  match l with
  | [] => [(k, v)]
  | (k0, v0) :: rest => if k0 = k then (k, v) :: rest else (k0, v0) :: setKV rest k v

/-- Python dict lookup `d.get(k)`. -/
def getKV (l : List (String × Entry)) (k : String) : Option Entry :=
  match l with
  | [] => none
  | (k0, v0) :: rest => if k0 = k then some v0 else getKV rest k

/-- Source `ProgressTracker.is_completed`: the entry for the job's key
(defaulting to an empty dict) has `"status" == "completed"`. -/
def is_completed (led : Ledger) (job : Job) : Bool :=
  match getKV led.jobs (_job_key job) with
  | some e => e.status = "completed"
  | none => false

/-- Source `ProgressTracker.count_completed`. -/
def count_completed (led : Ledger) : Nat :=
  led.jobs.countP (fun p => p.2.status = "completed")

/-- Source `ProgressTracker.start_job`: unconditionally writes a fresh
`in_progress` entry whose `started` field is the current time. -/
def start_job (led : Ledger) (job : Job) (now : String) : Ledger :=
  let e : Entry :=
    { status := "in_progress", character := job.character, scene := job.scene,
      workflow := job.workflow, started := now }
  { led with jobs := setKV led.jobs (_job_key job) e }

/-- Python `round(x, 1)` (ties at the half-decimal differ: Python uses
banker's rounding on floats, `round` here rounds half away from zero; no
claim depends on tie behaviour). -/
def round1 (q : ℚ) : ℚ := (round (q * 10) : ℤ) / 10

/-- One element of the list returned by `process_job` (the dicts appended
to `saved`). -/
structure SavedFile where
  character : String
  scene : String
  file : String
deriving DecidableEq, Repr

/-- Source `ProgressTracker.complete_job`: terminal `completed` entry;
`started` is taken from the existing entry when present, else the current
time. -/
def complete_job (led : Ledger) (job : Job) (files : List SavedFile)
    (duration : ℚ) (now : String) : Ledger :=
  let key := _job_key job
  let e : Entry :=
    { status := "completed", character := job.character, scene := job.scene,
      workflow := job.workflow,
      started := ((getKV led.jobs key).map Entry.started).getD now,
      finished := some now,
      duration_s := some (round1 duration),
      files := some (files.map SavedFile.file) }
  { led with jobs := setKV led.jobs key e }

/-- Source `ProgressTracker.fail_job`: terminal `failed` entry; `started`
is taken from the existing entry when present; the error text is truncated
to 200 characters. -/
def fail_job (led : Ledger) (job : Job) (error : String)
    (duration : ℚ) (now : String) : Ledger :=
  let key := _job_key job
  let e : Entry :=
    { status := "failed", character := job.character, scene := job.scene,
      workflow := job.workflow,
      started := ((getKV led.jobs key).map Entry.started).getD now,
      failedAt := some now,
      duration_s := some (round1 duration),
      error := some (error.take 200) }
  { led with jobs := setKV led.jobs key e }

/-! ## Generation protocol results

`wait_for_prompt` returns the ComfyUI history document for the prompt.
Only its `outputs` member is consumed by `process_job`; each node output
may carry `gifs` / `images` / `videos` lists whose dict members are kept
when they contain a `filename` key (`filename = none` models an item
without that key, or a non-dict item). -/

structure OutItem where
  filename : Option String
  subfolder : String := ""
  kind : String := "output"
deriving DecidableEq, Repr

structure NodeOutput where
  gifs : List OutItem := []
  images : List OutItem := []
  videos : List OutItem := []
deriving DecidableEq, Repr

structure History where
  outputs : List (String × NodeOutput) := []
deriving DecidableEq, Repr

/-- The inner collection loop of `process_job` for one node: for each of
the keys `gifs`, `images`, `videos`, keep the items carrying a filename. -/
def nodeFiles (no : NodeOutput) : List OutItem :=
  (no.gifs.filter (fun it => it.filename.isSome))
    ++ (no.images.filter (fun it => it.filename.isSome))
    ++ (no.videos.filter (fun it => it.filename.isSome))

/-- List `files` as collected by `process_job` from `history["outputs"]`. -/
def extractFiles (h : History) : List OutItem :=
  h.outputs.foldl (fun acc p => acc ++ nodeFiles p.2) []

/-! ## Job executor (`process_job`) and its retry loop -/

/-- Constant `JOB_MAX_RETRIES = 2`: retry up to 2 times on transient
failures. -/
def JOB_MAX_RETRIES : Nat := 2

/-- Outcome of one attempt of the queue/await body
(`ensure_comfyui`; `queue_prompt`; `wait_for_prompt`): either a history, or
a raised error already classified as transient or terminal (the source
classifies by status-code substrings, `TimeoutError`, and a liveness
probe). -/
inductive AttemptOutcome where
  | ok (h : History)
  | err (transient : Bool) (msg : String)

/-- Errors that propagate out of `process_job`. -/
inductive PErr where
  | workflowNotFound (msg : String)
  | uploadFailed (msg : String)
  | generation (transient : Bool) (msg : String)
  | historyNone
deriving DecidableEq, Repr

/-- The retry loop `for attempt in range(1, JOB_MAX_RETRIES + 2)` of
`process_job`.  Returns the result together with the number of attempts
executed.  `fuel` counts the iterations left; it starts at
`maxRetries + 1`, the length of the Python range.  The fuel-exhausted case
(`historyNone`) corresponds to leaving the loop with `history = None`; it
is unreachable because a failure on the final attempt always re-raises. -/
def retryGo (f : Nat → AttemptOutcome) (maxRetries : Nat) :
    Nat → Nat → Except PErr History × Nat
  | _, 0 => (.error .historyNone, 0)
  | attempt, fuel + 1 =>
    match f attempt with
    | .ok h => (.ok h, 1)
    | .err t m =>
      if t = true ∧ attempt ≤ maxRetries then
        let r := retryGo f maxRetries (attempt + 1) fuel
        (r.1, r.2 + 1)
      else (.error (.generation t m), 1)

/-- The whole queue-and-wait phase of `process_job`: attempts are numbered
from 1 and the loop body runs at most `maxRetries + 1` times. -/
def retryQueueWait (f : Nat → AttemptOutcome) (maxRetries : Nat) :
    Except PErr History × Nat :=
  retryGo f maxRetries 1 (maxRetries + 1)

/-- Environment of one `process_job` call: outcomes of its interactions
with the filesystem and the pod (the remote-call plumbing is out of scope;
each probe or call is abstracted to its observed result). -/
structure JobEnv where
  destExists : Bool
  seedExists : Bool
  workflowOk : Bool
  uploadOk : Bool
  attempt : Nat → AttemptOutcome
  downloadOk : Bool

/-- Externally visible side effects of one `process_job` call: seed images
uploaded, queue/await attempts executed (each submits a prompt and awaits
generation), and artifact files written to the destination. -/
structure ProcEffects where
  uploads : Nat := 0
  attempts : Nat := 0
  artifacts : Nat := 0
deriving DecidableEq, Repr

/-- Python `PurePath.suffix` for ordinary file names. -/
def pathSuffix (p : String) : String :=
  let name := (pySplitChar p '/').getLastD ""
  let parts := pySplitChar name '.'
  if parts.length ≤ 1 then "" else "." ++ parts.getLastD ""

/-- Last path component, used for `dest.relative_to(dest_dir.parent)`. -/
def pathName (p : String) : String := (pySplitChar p '/').getLastD ""

/-- The record appended to `saved` after a successful download:
`ext` falls back to `.mp4` when the produced filename has no suffix, and
the recorded `file` is relative to the parent of the per-character
destination directory in scene mode. -/
def mkSaved (job : Job) (finalName : String) : SavedFile :=
  let ext0 := pathSuffix finalName
  let ext := if ext0 = "" then ".mp4" else ext0
  let wfShort := workflowShort job.workflow
  match job.dest_name with
  | some d =>
    { character := job.character,
      scene := if job.scene = "" then wfShort else job.scene,
      file := pathName (job.dest_dir.getD "") ++ "/" ++ (d ++ ext) }
  | none =>
    { character := job.character,
      scene := if job.scene = "" then wfShort else job.scene,
      file := job.character ++ "_" ++ wfShort ++ ext }

/-- Source `process_job`: skip when the destination artifact already exists or the
seed is missing (both return an empty list without touching the pod);
resolve and load the workflow; upload the seed; run the retry loop; then
extract the produced files and download only the final one.  A failing
download is caught and logged, leaving `saved` empty.  Returns the saved
files (or the propagated error) together with the effect counts. -/
def process_job (env : JobEnv) (job : Job) :
    Except PErr (List SavedFile) × ProcEffects :=
  if env.destExists then (.ok [], {})
  else if env.seedExists = false then (.ok [], {})
  else if env.workflowOk = false then
    (.error (.workflowNotFound "Workflow not found"), {})
  else if env.uploadOk = false then
    (.error (.uploadFailed "upload failed"), { uploads := 1 })
  else
    match retryQueueWait env.attempt JOB_MAX_RETRIES with
    | (.error e, k) => (.error e, { uploads := 1, attempts := k })
    | (.ok h, k) =>
      let files := extractFiles h
      match files.getLast? with
      | none => (.ok [], { uploads := 1, attempts := k })
      | some finalItem =>
        if env.downloadOk then
          (.ok [mkSaved job ((finalItem.filename).getD "")],
           { uploads := 1, attempts := k, artifacts := 1 })
        else
          (.ok [], { uploads := 1, attempts := k, artifacts := 0 })

/-! ## Worker loop step

Both the parallel worker (`pod_worker`) and the sequential loop in `main`
run the identical per-job sequence: skip when the ledger marks the job
completed; otherwise `start_job`, run `process_job`, and record
`complete_job` on return or `fail_job` on an exception. -/

/-- Python `str(e)` for a propagated `process_job` error. -/
def errText : PErr → String
  | .workflowNotFound m => m
  | .uploadFailed m => m
  | .generation _ m => m
  | .historyNone => "NoneType has no attribute get"

/-- Per-job context: the `process_job` environment plus the observed clock
values (`_now_iso()` at start and at the terminal transition) and the
measured duration. -/
structure StepCtx where
  env : JobEnv
  nowStart : String
  nowEnd : String
  dur : ℚ

/-- One iteration of the worker loop.  The returned `Bool` records whether
`process_job` was invoked for this job. -/
def workerStep (ctx : StepCtx) (led : Ledger) (job : Job) :
    Ledger × Bool × ProcEffects :=
  if is_completed led job then (led, false, {})
  else
    let led1 := start_job led job ctx.nowStart
    match process_job ctx.env job with
    | (.ok files, eff) => (complete_job led1 job files ctx.dur ctx.nowEnd, true, eff)
    | (.error e, eff) => (fail_job led1 job (errText e) ctx.dur ctx.nowEnd, true, eff)

/-- The worker loop over its assigned jobs (the `for i, job in enumerate`
loops of `pod_worker` and `main`), with a per-index step context.  Returns
the final ledger and the keys of the jobs for which `process_job` was
invoked. -/
def runJobs (sched : Nat → StepCtx) (led : Ledger) (jobs : List Job)
    (idx : Nat) : Ledger × List String :=
  match jobs with
  | [] => (led, [])
  | j :: rest =>
    let s := workerStep (sched idx) led j
    let r := runJobs sched s.1 rest (idx + 1)
    (r.1, (if s.2.1 then [_job_key j] else []) ++ r.2)

/-! ## Orchestrator partitioning (`distribute_jobs`) -/

/-- Step `by_char.setdefault(job["character"], []).append(job)` for one
job: append to the character's group, creating it at the end on first
sight. -/
def insertByChar : List (String × List Job) → Job → List (String × List Job)
  | [], j => [(j.character, [j])]
  | (c, js) :: rest, j =>
    if c = j.character then (c, js ++ [j]) :: rest
    else (c, js) :: insertByChar rest j

/-- The insertion-ordered `by_char` grouping of `distribute_jobs`. -/
def byChar (jobs : List Job) : List (String × List Job) :=
  jobs.foldl insertByChar []

/-- Contents of bucket `k` after the round-robin deal
`pod_groups[i % num_pods].extend(char_jobs)`: the concatenation of the
groups whose enumeration index `i` (starting at the given value) has
residue `k` modulo `n`. -/
def dealIdx (n k : Nat) : List (List Job) → Nat → List Job
  | [], _ => []
  | g :: rest, i => (if i % n = k then g else []) ++ dealIdx n k rest (i + 1)

/-- Source `distribute_jobs`: group by character, deal the character
groups round-robin across `num_pods` buckets, and drop empty buckets. -/
def distribute_jobs (jobs : List Job) (num_pods : Nat) : List (List Job) :=
  let groups := (byChar jobs).map Prod.snd
  ((List.range num_pods).map (fun k => dealIdx num_pods k groups 0)).filter
    (fun g => !g.isEmpty)

/-! ## Scene catalog and filter resolution -/

/-- Catalog `SCENE_DEFS`: scene name ↦ (seed file, workflow file). -/
def SCENE_DEFS : List (String × String × String) :=
  [("bj",                   "clothed.png", "bj-api.json"),
   ("topless_bj",           "topless.png", "bj-api.json"),
   ("feet",                 "clothed.png", "feet-api.json"),
   ("topless_feet",         "topless.png", "feet-api.json"),
   ("topless_sex",          "topless.png", "topless-sex-api.json"),
   ("boobs_fondle",         "clothed.png", "boobs-fondle-api.json"),
   ("topless_boobs_fondle", "topless.png", "boobs-fondle-api.json"),
   ("bottom",               "clothed.png", "bottom-api.json"),
   ("topless_bottom",       "topless.png", "topless-bottom-api.json"),
   ("boobs_clothes_off",    "clothed.png", "strip-api.json")]

/-- Source `ALL_SCENE_NAMES = list(SCENE_DEFS.keys())`. -/
def ALL_SCENE_NAMES : List String := SCENE_DEFS.map Prod.fst

/-- Source `resolve_scenes(scenes_arg, no_scenes_arg)`.  `none` models a missing
CLI argument; an empty string is falsy like `None`.  Unknown names in the
final list raise `ValueError` with a message listing the catalog (the
quote characters around the offending name are elided here). -/
def resolve_scenes (scenes_arg no_scenes_arg : Option String) :
    Except String (List String) :=
  let base :=
    match scenes_arg with
    | none => ALL_SCENE_NAMES
    | some sa =>
      if sa = "" ∨ pyUpper (pyStrip sa) = "ALL" then ALL_SCENE_NAMES
      else
        let items := ((pySplitChar sa ',').map pyStrip).filter (fun it => it ≠ "")
        let excludes := (items.filter (fun it => pyStartsWith (pyUpper it) "NO ")).map
          (fun it => pyStrip (pyDrop it 3))
        let includes := items.filter (fun it => !(pyStartsWith (pyUpper it) "NO "))
        let scenes0 := if includes ≠ [] then includes else ALL_SCENE_NAMES
        excludes.foldl (fun sc ex => sc.erase ex) scenes0
  let scenes1 :=
    match no_scenes_arg with
    | none => base
    | some na =>
      ((pySplitChar na ',').map (fun it => pyLower (pyStrip it))).foldl
        (fun sc it => if it ≠ "" then sc.erase it else sc) base
  match scenes1.find? (fun s => !(ALL_SCENE_NAMES.contains s)) with
  | some s =>
    .error ("Unknown scene: " ++ s ++ ". Valid scenes:\n  "
      ++ String.intercalate ", " ALL_SCENE_NAMES)
  | none => .ok scenes1

/-! ## Raw ledger document (`ProgressTracker._load` on arbitrary files)

`_load` returns whatever `json.loads` produced; only a decode error or an
OS error degrades to a fresh document.  To settle claims about malformed
files the document is modelled as a dynamic JSON value and the dict
operations of `is_completed` as fallible Python primitives. -/

inductive PyJson where
  | null
  | boolean (b : Bool)
  | num (n : Int)
  | str (s : String)
  | arr (xs : List PyJson)
  | obj (kvs : List (String × PyJson))
deriving Repr

inductive PyErr where
  | keyError (k : String)
  | typeError (msg : String)
  | attributeError (msg : String)
deriving DecidableEq, Repr

def lookupJ : List (String × PyJson) → String → Option PyJson
  | [], _ => none
  | (k0, v0) :: rest, k => if k0 = k then some v0 else lookupJ rest k

/-- Python `value[key]` for a string key: `KeyError` when the dict lacks
the key, `TypeError` when the value is not a dict. -/
def pySubscript (v : PyJson) (k : String) : Except PyErr PyJson :=
  match v with
  | .obj kvs =>
    match lookupJ kvs k with
    | some x => .ok x
    | none => .error (.keyError k)
  | _ => .error (.typeError "indices must be integers")

/-- Python `value.get(key, default)`: `AttributeError` when the value is
not a dict. -/
def pyGet (v : PyJson) (k : String) (default : PyJson) : Except PyErr PyJson :=
  match v with
  | .obj kvs => .ok ((lookupJ kvs k).getD default)
  | _ => .error (.attributeError "no attribute get")

/-- The fresh document `_load` builds when the file is absent or unreadable
or fails to parse. -/
def freshDoc (now : String) : PyJson :=
  .obj [("started", .str now), ("jobs", .obj [])]

/-- Source `ProgressTracker._load`.  The file state is `none` when `progress.json`
does not exist, `some (.error ())` when reading or JSON-decoding it raises,
and `some (.ok v)` when it parses to the JSON value `v`. -/
def tracker_load (now : String) (file : Option (Except Unit PyJson)) : PyJson :=
  match file with
  | some (.ok v) => v
  | some (.error _) => freshDoc now
  | none => freshDoc now

/-- Python `value == s` for a string literal `s`: true exactly when the
value is that string (comparing any other JSON value with a string is
`False`, never an error). -/
def pyEqStr (v : PyJson) (s : String) : Bool :=
  match v with
  | .str s0 => s0 = s
  | _ => false

/-- Method `is_completed` executed against the raw loaded document:
`jobs = self.data["jobs"]`, then `jobs.get(key, dict()).get("status")`
compared with `"completed"`. -/
def raw_is_completed (data : PyJson) (job : Job) : Except PyErr Bool := do
  let jobs ← pySubscript data "jobs"
  let entry ← pyGet jobs (_job_key job) (.obj [])
  let status ← pyGet entry "status" .null
  pure (pyEqStr status "completed")

/-! ## ETA estimation (`ProgressTracker.log_eta`) -/

/-- What `log_eta` reports: either a full estimate line or, with no
completed samples this run, only the done/remaining counts. -/
inductive EtaReport where
  | withEta (done : Nat) (remaining : ℤ) (avg : ℚ) (eta : ℚ)
  | countOnly (done : Nat) (remaining : ℤ)
deriving DecidableEq, Repr

/-- Source `log_eta(total, num_workers)`.  `jobTimes` is the tracker's in-memory
`_job_times` list: the durations of jobs completed during the current run
(Python floats, modelled as rationals). -/
def log_eta (led : Ledger) (jobTimes : List ℚ) (total : Nat)
    (num_workers : Nat) : EtaReport :=
  let done := count_completed led
  let remaining : ℤ := (total : ℤ) - (done : ℤ)
  if jobTimes.isEmpty then .countOnly done remaining
  else
    let avg := jobTimes.sum / (jobTimes.length : ℚ)
    .withEta done remaining avg ((avg * (remaining : ℚ)) / (max num_workers 1 : ℚ))

/-! ## Concrete instances used by witnesses and counterexamples -/

def job0 : Job :=
  { character := "alice", workflow := "bj-api.json", seed := "clothed.png",
    scene := "bj" }

def entryDone : Entry :=
  { status := "completed", character := "alice", scene := "bj",
    workflow := "bj-api.json", started := "T0" }

def entryProg : Entry :=
  { status := "in_progress", character := "alice", scene := "bj",
    workflow := "bj-api.json", started := "T0" }

def ledEmpty : Ledger := { started := "T0", jobs := [] }

def ledDone : Ledger := { started := "T0", jobs := [("alice/bj", entryDone)] }

def ledProg : Ledger := { started := "T0", jobs := [("alice/bj", entryProg)] }

def histEmpty : History := {}

def itemOne : OutItem := { filename := some "video.mp4" }

def histOne : History := { outputs := [("9", { videos := [itemOne] })] }

def envOkEmpty : JobEnv :=
  { destExists := false, seedExists := true, workflowOk := true,
    uploadOk := true, attempt := fun _ => .ok histEmpty, downloadOk := true }

def envSkipDest : JobEnv := { envOkEmpty with destExists := true }

def envOneFile : JobEnv :=
  { envOkEmpty with attempt := fun _ => .ok histOne }

def envTransThenOk : JobEnv :=
  { envOkEmpty with
    attempt := fun i => if i ≤ 2 then .err true "e503" else .ok histEmpty }

def envAllTrans : JobEnv :=
  { envOkEmpty with attempt := fun _ => .err true "e503" }

def mkCtx (env : JobEnv) : StepCtx :=
  { env := env, nowStart := "T1", nowEnd := "T2", dur := 7 }

def jobsW : List Job :=
  [{ character := "alice", workflow := "bj-api.json", seed := "s", scene := "bj" },
   { character := "bob", workflow := "bj-api.json", seed := "s", scene := "bj" },
   { character := "alice", workflow := "feet-api.json", seed := "s", scene := "feet" }]

/-! # Theorems -/

/-! ### Basic lookup lemmas -/

theorem getKV_setKV_self (l : List (String × Entry)) (k : String) (v : Entry) :
    getKV (setKV l k v) k = some v := by
  induction l with
  | nil => simp [setKV, getKV]
  | cons p rest ih =>
    obtain ⟨k0, v0⟩ := p
    by_cases h : k0 = k
    · simp [setKV, getKV, h]
    · simp [setKV, getKV, h, ih]

theorem getKV_setKV_ne (l : List (String × Entry)) (k k2 : String) (v : Entry)
    (h : k2 ≠ k) : getKV (setKV l k v) k2 = getKV l k2 := by
  induction l with
  | nil =>
    simp only [setKV, getKV]
    rw [if_neg (fun hh => h hh.symm)]
  | cons p rest ih =>
    obtain ⟨k0, v0⟩ := p
    by_cases h0 : k0 = k
    · subst h0
      have hk : ¬ (k0 = k2) := fun hh => h hh.symm
      simp [setKV, getKV, hk]
    · simp only [setKV, if_neg h0, getKV]
      split
      · rfl
      · exact ih

theorem is_completed_congr (led : Ledger) (j X : Job)
    (hk : _job_key j = _job_key X) : is_completed led j = is_completed led X := by
  simp [is_completed, hk]

theorem workerStep_skip (ctx : StepCtx) (led : Ledger) (job : Job)
    (h : is_completed led job = true) :
    workerStep ctx led job = (led, false, ({} : ProcEffects)) := by
  simp [workerStep, h]

theorem workerStep_preserve (ctx : StepCtx) (led : Ledger) (job : Job) (k : String)
    (hk : k ≠ _job_key job) :
    getKV (workerStep ctx led job).1.jobs k = getKV led.jobs k := by
  unfold workerStep
  split
  · rfl
  · cases hp : process_job ctx.env job with
    | mk r eff =>
      cases r with
      | ok files =>
        simp only [hp, complete_job, start_job]
        rw [getKV_setKV_ne _ _ _ _ hk, getKV_setKV_ne _ _ _ _ hk]
      | error e =>
        simp only [hp, fail_job, start_job]
        rw [getKV_setKV_ne _ _ _ _ hk, getKV_setKV_ne _ _ _ _ hk]

/-- C7: for every job identity, `is_completed` returns true immediately
after `complete_job` for that identity, and false immediately after
`fail_job` for that identity. -/
theorem C7_terminal_transitions (led : Ledger) (job : Job)
    (files : List SavedFile) (err : String) (d : ℚ) (now : String) :
    is_completed (complete_job led job files d now) job = true ∧
    is_completed (fail_job led job err d now) job = false := by
  constructor
  · simp [is_completed, complete_job, getKV_setKV_self]
  · simp [is_completed, fail_job, getKV_setKV_self]

/-- C3 counterexample: a ledger already holds an `in_progress` entry for
`alice/bj` whose `started` is `T0`; calling `start_job` again at time `T1`
rewrites `started` to `T1` instead of preserving `T0`, refuting the claim
that a re-attempt keeps the original start time. -/
theorem C3_counterexample :
    ((getKV ledProg.jobs (_job_key job0)).map Entry.started) = some "T0" ∧
    ((getKV (start_job ledProg job0 "T1").jobs (_job_key job0)).map Entry.started)
      = some "T1" := by
  constructor <;> rfl

/-- C3 (amended): `start_job` records status `in_progress` but always
overwrites the entry, setting `started` to the current clock value; the
original `started_at` of an existing entry is not preserved by `start_job`
(the preservation happens later, in `complete_job` / `fail_job`). -/
theorem C3_start_overwrites (led : Ledger) (job : Job) (now : String) :
    getKV (start_job led job now).jobs (_job_key job) =
      some { status := "in_progress", character := job.character,
             scene := job.scene, workflow := job.workflow, started := now } := by
  simp [start_job, getKV_setKV_self]

/-- C1: replaying a batch (any worker-loop job list, any per-job
environments) against a ledger where job `X` is `completed` never invokes
`process_job` for `X`'s identity and leaves `X`'s ledger entry byte-for-byte
unchanged: every job sharing `X`'s key is skipped before `start_job`, and
steps for other keys only write their own key. -/
theorem C1_resume_idempotent (sched : Nat → StepCtx) (led : Ledger)
    (jobs : List Job) (X : Job) (idx : Nat)
    (h : is_completed led X = true) :
    getKV (runJobs sched led jobs idx).1.jobs (_job_key X)
      = getKV led.jobs (_job_key X) ∧
    _job_key X ∉ (runJobs sched led jobs idx).2 := by
  induction jobs generalizing led idx with
  | nil => simp [runJobs]
  | cons j rest ih =>
    by_cases hk : _job_key j = _job_key X
    · have hcj : is_completed led j = true :=
        (is_completed_congr led j X hk).trans h
      have hstep : workerStep (sched idx) led j = (led, false, ({} : ProcEffects)) :=
        workerStep_skip _ _ _ hcj
      simp only [runJobs, hstep]
      simpa using ih led (idx + 1) h
    · have hXk : _job_key X ≠ _job_key j := fun hh => hk hh.symm
      have hpres : getKV (workerStep (sched idx) led j).1.jobs (_job_key X)
          = getKV led.jobs (_job_key X) :=
        workerStep_preserve _ _ _ _ hXk
      have hcomp : is_completed (workerStep (sched idx) led j).1 X = true := by
        unfold is_completed at h ⊢
        rw [hpres]; exact h
      obtain ⟨ih1, ih2⟩ := ih (workerStep (sched idx) led j).1 (idx + 1) hcomp
      simp only [runJobs]
      refine ⟨ih1.trans hpres, ?_⟩
      intro hmem
      rcases List.mem_append.1 hmem with hmem | hmem
      · have heq : _job_key X = _job_key j := by
          by_cases hb : (workerStep (sched idx) led j).2.1 = true
          · rw [hb] at hmem
            simpa using hmem
          · rw [Bool.not_eq_true] at hb
            rw [hb] at hmem
            simp at hmem
        exact hXk heq
      · exact ih2 hmem

/-- C1 witness: a one-job batch replayed against a ledger where that job is
completed leaves the entry unchanged and never invokes the executor. -/
theorem C1_resume_idempotent_witness :
    is_completed ledDone job0 = true ∧
    (getKV (runJobs (fun _ => mkCtx envOkEmpty) ledDone [job0] 0).1.jobs
        (_job_key job0) = getKV ledDone.jobs (_job_key job0) ∧
     _job_key job0 ∉ (runJobs (fun _ => mkCtx envOkEmpty) ledDone [job0] 0).2) :=
  ⟨rfl, C1_resume_idempotent (fun _ => mkCtx envOkEmpty) ledDone [job0] job0 0 rfl⟩

/-- C10: when the destination artifact already exists and the ledger does
not mark the job completed, `process_job` returns an empty list with zero
uploads, zero queue/await attempts and zero artifacts written, and the
worker loop then records a `completed` entry whose output-file list is
empty. -/
theorem C10_existing_artifact_skip (ctx : StepCtx) (led : Ledger) (job : Job)
    (hdest : ctx.env.destExists = true)
    (hnc : is_completed led job = false) :
    process_job ctx.env job = (Except.ok [], ({} : ProcEffects)) ∧
    (workerStep ctx led job).2.1 = true ∧
    (workerStep ctx led job).2.2 = ({} : ProcEffects) ∧
    (getKV (workerStep ctx led job).1.jobs (_job_key job)).map
        (fun e => (e.status, e.files)) = some ("completed", some []) := by
  have hp : process_job ctx.env job = (Except.ok [], ({} : ProcEffects)) := by
    simp [process_job, hdest]
  refine ⟨hp, ?_, ?_, ?_⟩ <;>
    simp [workerStep, hnc, hp, complete_job, start_job, getKV_setKV_self]

/-- C10 witness: concrete job against a pod environment whose destination
check reports an existing artifact. -/
theorem C10_existing_artifact_skip_witness :
    (mkCtx envSkipDest).env.destExists = true ∧
    is_completed ledEmpty job0 = false ∧
    ((getKV (workerStep (mkCtx envSkipDest) ledEmpty job0).1.jobs
        (_job_key job0)).map (fun e => (e.status, e.files))
      = some ("completed", some [])) :=
  ⟨rfl, rfl,
   (C10_existing_artifact_skip (mkCtx envSkipDest) ledEmpty job0 rfl rfl).2.2.2⟩

theorem retryGo_succeeds (f : Nat → AttemptOutcome) (R : Nat) (h : History) :
    ∀ fuel attempt, attempt + fuel = R + 2 → 1 ≤ fuel →
    (∀ i, attempt ≤ i → i ≤ R → ∃ m, f i = .err true m) →
    f (R + 1) = .ok h →
    retryGo f R attempt fuel = (.ok h, fuel) := by
  intro fuel
  induction fuel with
  | zero => intro attempt h1 h2 _ _; omega
  | succ n ihn =>
    intro attempt heq _ htrans hsucc
    by_cases hn : n = 0
    · subst hn
      have ha : attempt = R + 1 := by omega
      subst ha
      simp [retryGo, hsucc]
    · have hle : attempt ≤ R := by omega
      obtain ⟨m, hm⟩ := htrans attempt le_rfl hle
      have hrec := ihn (attempt + 1) (by omega) (by omega)
        (fun i hi1 hi2 => htrans i (by omega) hi2) hsucc
      simp [retryGo, hm, hle, hrec]

theorem retryGo_exhausts (f : Nat → AttemptOutcome) (R : Nat) :
    ∀ fuel attempt, attempt + fuel = R + 2 → 1 ≤ fuel →
    (∀ i, attempt ≤ i → i ≤ R + 1 → ∃ m, f i = .err true m) →
    ∃ m, retryGo f R attempt fuel = (.error (.generation true m), fuel) := by
  intro fuel
  induction fuel with
  | zero => intro attempt h1 h2 _; omega
  | succ n ihn =>
    intro attempt heq _ htrans
    by_cases hn : n = 0
    · subst hn
      have ha : attempt = R + 1 := by omega
      subst ha
      obtain ⟨m, hm⟩ := htrans (R + 1) le_rfl le_rfl
      refine ⟨m, ?_⟩
      have hnle : ¬ (R + 1 ≤ R) := by omega
      simp [retryGo, hm, hnle]
    · have hle : attempt ≤ R := by omega
      obtain ⟨m, hm⟩ := htrans attempt le_rfl (by omega)
      obtain ⟨m2, hrec⟩ := ihn (attempt + 1) (by omega) (by omega)
        (fun i hi1 hi2 => htrans i (by omega) hi2)
      refine ⟨m2, ?_⟩
      simp [retryGo, hm, hle, hrec]

theorem process_job_ok_of_retry_ok (env : JobEnv) (job : Job)
    (hdest : env.destExists = false) (hseed : env.seedExists = true)
    (hwf : env.workflowOk = true) (hup : env.uploadOk = true)
    (h : History) (k : Nat)
    (hr : retryQueueWait env.attempt JOB_MAX_RETRIES = (.ok h, k)) :
    ∃ files eff, process_job env job = (.ok files, eff) := by
  simp only [process_job, hdest, hseed, hwf, hup, hr]
  cases hfg : (extractFiles h).getLast? with
  | none =>
    refine ⟨[], { uploads := 1, attempts := k }, ?_⟩
    simp [hfg]
  | some item =>
    by_cases hdl : env.downloadOk = true
    · refine ⟨[mkSaved job (item.filename.getD "")],
        { uploads := 1, attempts := k, artifacts := 1 }, ?_⟩
      simp [hfg, hdl]
    · rw [Bool.not_eq_true] at hdl
      refine ⟨[], { uploads := 1, attempts := k }, ?_⟩
      simp [hfg, hdl]

theorem process_job_err_of_retry_err (env : JobEnv) (job : Job)
    (hdest : env.destExists = false) (hseed : env.seedExists = true)
    (hwf : env.workflowOk = true) (hup : env.uploadOk = true)
    (e : PErr) (k : Nat)
    (hr : retryQueueWait env.attempt JOB_MAX_RETRIES = (.error e, k)) :
    process_job env job = (.error e, { uploads := 1, attempts := k }) := by
  simp [process_job, hdest, hseed, hwf, hup, hr]

theorem workerStep_ok_status (ctx : StepCtx) (led : Ledger) (job : Job)
    (hnc : is_completed led job = false) (files : List SavedFile)
    (eff : ProcEffects) (hp : process_job ctx.env job = (.ok files, eff)) :
    (getKV (workerStep ctx led job).1.jobs (_job_key job)).map Entry.status
      = some "completed" := by
  simp [workerStep, hnc, hp, complete_job, start_job, getKV_setKV_self]

theorem workerStep_err_status (ctx : StepCtx) (led : Ledger) (job : Job)
    (hnc : is_completed led job = false) (e : PErr)
    (eff : ProcEffects) (hp : process_job ctx.env job = (.error e, eff)) :
    (getKV (workerStep ctx led job).1.jobs (_job_key job)).map Entry.status
      = some "failed" := by
  simp [workerStep, hnc, hp, fail_job, start_job, getKV_setKV_self]

/-- C4: with the executor reachable (destination absent, seed present,
workflow and upload fine), a job whose queue/await attempts raise a
transient error on attempts `1 .. JOB_MAX_RETRIES` and succeed on attempt
`JOB_MAX_RETRIES + 1` is recorded `completed`; transient errors on all of
attempts `1 .. JOB_MAX_RETRIES + 1` make the error propagate out of
`process_job` and the job is recorded `failed`. -/
theorem C4_retry_budget (ctx : StepCtx) (led : Ledger) (job : Job)
    (hnc : is_completed led job = false)
    (hdest : ctx.env.destExists = false) (hseed : ctx.env.seedExists = true)
    (hwf : ctx.env.workflowOk = true) (hup : ctx.env.uploadOk = true) :
    (∀ h, (∀ i, 1 ≤ i → i ≤ JOB_MAX_RETRIES → ∃ m, ctx.env.attempt i = .err true m) →
      ctx.env.attempt (JOB_MAX_RETRIES + 1) = .ok h →
      (getKV (workerStep ctx led job).1.jobs (_job_key job)).map Entry.status
        = some "completed") ∧
    ((∀ i, 1 ≤ i → i ≤ JOB_MAX_RETRIES + 1 → ∃ m, ctx.env.attempt i = .err true m) →
      (∃ m, process_job ctx.env job =
        (.error (.generation true m),
         { uploads := 1, attempts := JOB_MAX_RETRIES + 1 })) ∧
      (getKV (workerStep ctx led job).1.jobs (_job_key job)).map Entry.status
        = some "failed") := by
  constructor
  · intro h htrans hok
    have hr : retryQueueWait ctx.env.attempt JOB_MAX_RETRIES
        = (.ok h, JOB_MAX_RETRIES + 1) :=
      retryGo_succeeds ctx.env.attempt JOB_MAX_RETRIES h (JOB_MAX_RETRIES + 1) 1
        (by omega) (by omega) (fun i hi1 hi2 => htrans i hi1 hi2) hok
    obtain ⟨files, eff, hp⟩ :=
      process_job_ok_of_retry_ok ctx.env job hdest hseed hwf hup h _ hr
    exact workerStep_ok_status ctx led job hnc files eff hp
  · intro htrans
    obtain ⟨m, hr⟩ := retryGo_exhausts ctx.env.attempt JOB_MAX_RETRIES
      (JOB_MAX_RETRIES + 1) 1 (by omega) (by omega)
      (fun i hi1 hi2 => htrans i hi1 hi2)
    have hp := process_job_err_of_retry_err ctx.env job hdest hseed hwf hup
      (.generation true m) (JOB_MAX_RETRIES + 1) hr
    exact ⟨⟨m, hp⟩, workerStep_err_status ctx led job hnc _ _ hp⟩

/-- C4 witness: attempts 1 and 2 transient then success on attempt 3 yields
a `completed` entry; transient on attempts 1, 2 and 3 yields a `failed`
entry. -/
theorem C4_retry_budget_witness :
    (getKV (workerStep (mkCtx envTransThenOk) ledEmpty job0).1.jobs
        (_job_key job0)).map Entry.status = some "completed" ∧
    (getKV (workerStep (mkCtx envAllTrans) ledEmpty job0).1.jobs
        (_job_key job0)).map Entry.status = some "failed" := by
  constructor
  · exact (C4_retry_budget (mkCtx envTransThenOk) ledEmpty job0
        rfl rfl rfl rfl rfl).1 histEmpty
      (fun i hi1 hi2 => ⟨"e503", by
        have h2 : i ≤ 2 := hi2
        simp only [mkCtx, envTransThenOk, envOkEmpty]
        rw [if_pos h2]⟩)
      (by simp [mkCtx, envTransThenOk, envOkEmpty, JOB_MAX_RETRIES])
  · exact ((C4_retry_budget (mkCtx envAllTrans) ledEmpty job0
        rfl rfl rfl rfl rfl).2
      (fun i hi1 hi2 => ⟨"e503", rfl⟩)).2

/-- C6 counterexample: a run that reaches the pod, queues on the first
attempt and succeeds — but whose history carries no output files — returns
success with zero artifact files written, and the worker loop records a
`complete` ledger entry anyway.  This refutes "if the run succeeds the
executor writes exactly one artifact file". -/
theorem C6_counterexample :
    process_job envOkEmpty job0
      = (Except.ok [], { uploads := 1, attempts := 1, artifacts := 0 }) ∧
    (getKV (workerStep (mkCtx envOkEmpty) ledEmpty job0).1.jobs
        (_job_key job0)).map Entry.status = some "completed" := by
  constructor <;> rfl

/-- C6 (amended): when the run reaches the generation phase, succeeds,
produces at least one output file and the download succeeds, `process_job`
writes exactly one artifact and the worker loop records one `complete`
entry; when retries are exhausted or a terminal error propagates, zero
artifacts are written and one `fail` entry is recorded.  However a
"successful" run with no output files, a missing seed, an existing
destination, or a failed download still records a `complete` entry with
zero artifact files. -/
theorem C6_side_effect_contract (ctx : StepCtx) (led : Ledger) (job : Job)
    (hnc : is_completed led job = false)
    (hdest : ctx.env.destExists = false) (hseed : ctx.env.seedExists = true)
    (hwf : ctx.env.workflowOk = true) (hup : ctx.env.uploadOk = true) :
    (∀ h k, retryQueueWait ctx.env.attempt JOB_MAX_RETRIES = (.ok h, k) →
      extractFiles h ≠ [] → ctx.env.downloadOk = true →
      (∃ item, (extractFiles h).getLast? = some item ∧
        process_job ctx.env job
          = (.ok [mkSaved job (item.filename.getD "")],
             { uploads := 1, attempts := k, artifacts := 1 })) ∧
      (getKV (workerStep ctx led job).1.jobs (_job_key job)).map Entry.status
        = some "completed") ∧
    (∀ e k, retryQueueWait ctx.env.attempt JOB_MAX_RETRIES = (.error e, k) →
      process_job ctx.env job
        = (.error e, { uploads := 1, attempts := k, artifacts := 0 }) ∧
      (getKV (workerStep ctx led job).1.jobs (_job_key job)).map Entry.status
        = some "failed") := by
  constructor
  · intro h k hr hne hdl
    cases hfg : (extractFiles h).getLast? with
    | none =>
      rw [List.getLast?_eq_none_iff] at hfg
      exact absurd hfg hne
    | some item =>
      have hp : process_job ctx.env job
          = (.ok [mkSaved job (item.filename.getD "")],
             { uploads := 1, attempts := k, artifacts := 1 }) := by
        simp [process_job, hdest, hseed, hwf, hup, hr, hfg, hdl]
      exact ⟨⟨item, rfl, hp⟩, workerStep_ok_status ctx led job hnc _ _ hp⟩
  · intro e k hr
    have hp : process_job ctx.env job
        = (.error e, { uploads := 1, attempts := k, artifacts := 0 }) := by
      simp [process_job, hdest, hseed, hwf, hup, hr]
    exact ⟨hp, workerStep_err_status ctx led job hnc _ _ hp⟩

/-- C6 witness: a fully successful run with one produced file writes one
artifact and a `complete` entry; a run whose every attempt is transient
writes zero artifacts and a `fail` entry. -/
theorem C6_side_effect_contract_witness :
    (process_job envOneFile job0
      = (Except.ok [mkSaved job0 "video.mp4"],
         { uploads := 1, attempts := 1, artifacts := 1 }) ∧
     (getKV (workerStep (mkCtx envOneFile) ledEmpty job0).1.jobs
        (_job_key job0)).map Entry.status = some "completed") ∧
    (process_job envAllTrans job0
      = (Except.error (PErr.generation true "e503"),
         { uploads := 1, attempts := 3, artifacts := 0 }) ∧
     (getKV (workerStep (mkCtx envAllTrans) ledEmpty job0).1.jobs
        (_job_key job0)).map Entry.status = some "failed") := by
  constructor
  · have h := (C6_side_effect_contract (mkCtx envOneFile) ledEmpty job0
        rfl rfl rfl rfl rfl).1 histOne 1 rfl (by decide) rfl
    obtain ⟨⟨item, hfg, hp⟩, hst⟩ := h
    have hitem : item = itemOne := by
      have : (extractFiles histOne).getLast? = some itemOne := by decide
      rw [this] at hfg
      exact (Option.some_inj.1 hfg).symm
    subst hitem
    exact ⟨hp, hst⟩
  · have h := (C6_side_effect_contract (mkCtx envAllTrans) ledEmpty job0
        rfl rfl rfl rfl rfl).2 (PErr.generation true "e503") 3 rfl
    exact h

/-- C8 counterexample: the filter string `"NO zzz"` contains the scene name
`zzz`, which is not in the catalog, as a NO-prefixed exclusion — yet
`resolve_scenes` does not fail: unknown exclusions are silently ignored and
the full catalog is returned.  This refutes the claim that unknown names
fail whether given as inclusions or as exclusions. -/
theorem C8_counterexample :
    resolve_scenes (some "NO zzz") none = Except.ok ALL_SCENE_NAMES := by
  rfl

theorem mem_foldl_erase (ex : List String) : ∀ (l : List String) (x : String),
    x ∈ ex.foldl (fun sc e => sc.erase e) l → x ∈ l := by
  induction ex with
  | nil => intro l x h; simpa using h
  | cons e rest ih =>
    intro l x h
    exact List.mem_of_mem_erase (ih (l.erase e) x h)

theorem mem_foldl_erase_cond (its : List String) : ∀ (l : List String) (x : String),
    x ∈ its.foldl (fun sc it => if it ≠ "" then sc.erase it else sc) l → x ∈ l := by
  induction its with
  | nil => intro l x h; simpa using h
  | cons it rest ih =>
    intro l x h
    have h2 := ih _ x h
    simp only at h2
    by_cases hit : it ≠ ""
    · rw [if_pos hit] at h2
      exact List.mem_of_mem_erase h2
    · rw [if_neg hit] at h2
      exact h2

theorem resolve_scenes_sound (a b : Option String) (r : List String)
    (hok : resolve_scenes a b = Except.ok r) : ∀ s ∈ r, s ∈ ALL_SCENE_NAMES := by
  intro s hs
  simp only [resolve_scenes] at hok
  split at hok
  · exact absurd hok (by simp)
  · rename_i hfind
    obtain rfl := Except.ok.inj hok
    have := List.find?_eq_none.1 hfind s hs
    simpa using this

theorem resolve_scenes_error_member (a b : Option String) (e : String)
    (herr : resolve_scenes a b = Except.error e) :
    ∃ s, s ∉ ALL_SCENE_NAMES ∧
      (∃ sa, a = some sa ∧
        s ∈ ((((pySplitChar sa ',').map pyStrip).filter (fun it => it ≠ "")).filter
              (fun it => !(pyStartsWith (pyUpper it) "NO ")))) ∧
      e = "Unknown scene: " ++ s ++ ". Valid scenes:\n  "
          ++ String.intercalate ", " ALL_SCENE_NAMES := by
  simp only [resolve_scenes] at herr
  split at herr
  case _ s0 hfind =>
    have hs0p := List.find?_some hfind
    have hs0n : s0 ∉ ALL_SCENE_NAMES := by simpa using hs0p
    have hmsg : e = "Unknown scene: " ++ s0 ++ ". Valid scenes:\n  "
        ++ String.intercalate ", " ALL_SCENE_NAMES := (Except.error.inj herr).symm
    refine ⟨s0, hs0n, ?_, hmsg⟩
    cases a with
    | none =>
      cases b with
      | none =>
        have hmem : s0 ∈ ALL_SCENE_NAMES := List.mem_of_find?_eq_some hfind
        exact absurd hmem hs0n
      | some na =>
        have hmem2 : s0 ∈ ALL_SCENE_NAMES :=
          mem_foldl_erase_cond _ _ _ (List.mem_of_find?_eq_some hfind)
        exact absurd hmem2 hs0n
    | some sa =>
      have hmem0 : s0 ∈ (if sa = "" ∨ pyUpper (pyStrip sa) = "ALL" then ALL_SCENE_NAMES
          else
            List.foldl (fun sc ex => sc.erase ex)
              (if (((pySplitChar sa ',').map pyStrip).filter (fun it => it ≠ "")).filter
                    (fun it => !(pyStartsWith (pyUpper it) "NO ")) ≠ [] then
                (((pySplitChar sa ',').map pyStrip).filter (fun it => it ≠ "")).filter
                  (fun it => !(pyStartsWith (pyUpper it) "NO "))
              else ALL_SCENE_NAMES)
              (((((pySplitChar sa ',').map pyStrip).filter (fun it => it ≠ "")).filter
                  (fun it => pyStartsWith (pyUpper it) "NO ")).map
                (fun it => pyStrip (pyDrop it 3)))) := by
        cases b with
        | none => exact List.mem_of_find?_eq_some hfind
        | some na => exact mem_foldl_erase_cond _ _ _ (List.mem_of_find?_eq_some hfind)
      by_cases hcond : sa = "" ∨ pyUpper (pyStrip sa) = "ALL"
      · rw [if_pos hcond] at hmem0
        exact absurd hmem0 hs0n
      · rw [if_neg hcond] at hmem0
        have hb2 := mem_foldl_erase _ _ _ hmem0
        by_cases hinc : (((pySplitChar sa ',').map pyStrip).filter (fun it => it ≠ "")).filter
            (fun it => !(pyStartsWith (pyUpper it) "NO ")) ≠ []
        · rw [if_pos hinc] at hb2
          exact ⟨sa, rfl, hb2⟩
        · rw [if_neg hinc] at hb2
          exact absurd hb2 hs0n
  case _ hfind =>
    exact absurd herr (by simp)

theorem dropLeading_of_head (c : Char) (rest : List Char)
    (h : isSpaceChar c = false) : dropLeading (c :: rest) = c :: rest := by
  simp [dropLeading, h]

theorem splitOnCharAux_no_sep (sep : Char) : ∀ (cs acc : List Char), sep ∉ cs →
    splitOnCharAux sep cs acc = [acc.reverse ++ cs] := by
  intro cs
  induction cs with
  | nil => intro acc _; simp [splitOnCharAux]
  | cons c rest ih =>
    intro acc hsep
    have hc : ¬ (c = sep) := fun h => hsep (h ▸ List.mem_cons_self c rest)
    simp only [splitOnCharAux, if_neg hc]
    rw [ih (c :: acc) (fun h => hsep (List.mem_cons_of_mem _ h))]
    simp

theorem resolve_scenes_unknown_exclusion (x : String) (hx : x ∉ ALL_SCENE_NAMES)
    (hne : x ≠ "") (hw : ∀ c ∈ x.data, isSpaceChar c = false)
    (hc : ',' ∉ x.data) :
    resolve_scenes (some ("NO " ++ x)) none = Except.ok ALL_SCENE_NAMES := by
  have hdata : ("NO " ++ x).data = 'N' :: 'O' :: ' ' :: x.data := by
    simp [String.data_append]
  have hxd : x.data ≠ [] := by
    intro h
    exact hne (String.ext h)
  have hxrev : x.data.reverse ≠ [] := by simpa using hxd
  have hstrip : pyStrip ("NO " ++ x) = "NO " ++ x := by
    unfold pyStrip
    rw [hdata]
    rw [dropLeading_of_head 'N' _ (by decide)]
    have hrev : ('N' :: 'O' :: ' ' :: x.data).reverse
        = x.data.reverse ++ [' ', 'O', 'N'] := by simp
    rw [hrev]
    obtain ⟨c0, cs0, hc0⟩ : ∃ c0 cs0, x.data.reverse = c0 :: cs0 := by
      cases hh : x.data.reverse with
      | nil => exact absurd hh hxrev
      | cons c0 cs0 => exact ⟨c0, cs0, rfl⟩
    have hc0w : isSpaceChar c0 = false :=
      hw c0 (List.mem_reverse.1 (hc0 ▸ List.mem_cons_self _ _))
    rw [hc0, List.cons_append, dropLeading_of_head c0 _ hc0w, ← List.cons_append, ← hc0]
    rw [← hrev, List.reverse_reverse, ← hdata]
  have hstripx : pyStrip x = x := by
    unfold pyStrip
    obtain ⟨c0, cs0, hc0⟩ : ∃ c0 cs0, x.data = c0 :: cs0 := by
      cases hh : x.data with
      | nil => exact absurd hh hxd
      | cons c0 cs0 => exact ⟨c0, cs0, rfl⟩
    rw [hc0, dropLeading_of_head c0 _ (hw c0 (hc0 ▸ List.mem_cons_self _ _)), ← hc0]
    obtain ⟨c1, cs1, hc1⟩ : ∃ c1 cs1, x.data.reverse = c1 :: cs1 := by
      cases hh : x.data.reverse with
      | nil => exact absurd hh hxrev
      | cons c1 cs1 => exact ⟨c1, cs1, rfl⟩
    have hc1w : isSpaceChar c1 = false :=
      hw c1 (List.mem_reverse.1 (hc1 ▸ List.mem_cons_self _ _))
    rw [hc1, dropLeading_of_head c1 _ hc1w, ← hc1, List.reverse_reverse]
  have hsplit : pySplitChar ("NO " ++ x) ',' = ["NO " ++ x] := by
    unfold pySplitChar
    rw [hdata, splitOnCharAux_no_sep ',' _ []
      (by
        simp only [List.mem_cons]
        push_neg
        exact ⟨by decide, by decide, by decide, hc⟩)]
    simp only [List.reverse_nil, List.nil_append, List.map_cons, List.map_nil]
    rw [← hdata]
  have hne2 : ("NO " ++ x) ≠ "" := by
    intro h
    have := congrArg String.data h
    rw [hdata] at this
    simp at this
  have hup : ¬ (pyUpper (pyStrip ("NO " ++ x)) = "ALL") := by
    rw [hstrip]
    intro h
    have hd := congrArg String.data h
    simp only [pyUpper] at hd
    rw [hdata] at hd
    simp [List.map_cons] at hd
  have hsw : pyStartsWith (pyUpper ("NO " ++ x)) "NO " = true := by
    simp only [pyStartsWith, pyUpper]
    rw [hdata]
    rfl
  have hdrop : pyDrop ("NO " ++ x) 3 = x := by
    simp only [pyDrop]
    rw [hdata]
    rfl
  simp only [resolve_scenes]
  have hitems : List.filter (fun it => decide (it ≠ ""))
      (List.map pyStrip (pySplitChar ("NO " ++ x) ',')) = ["NO " ++ x] := by
    rw [hsplit, List.map_cons, List.map_nil, hstrip, List.filter_cons,
      if_pos (decide_eq_true hne2)]
    rfl
  have hincl : List.filter (fun it => !pyStartsWith (pyUpper it) "NO ") ["NO " ++ x]
      = ([] : List String) := by
    rw [List.filter_cons, if_neg (by simp [hsw])]
    rfl
  have hexcl : List.map (fun it => pyStrip (pyDrop it 3))
      (List.filter (fun it => pyStartsWith (pyUpper it) "NO ") ["NO " ++ x]) = [x] := by
    rw [List.filter_cons, if_pos hsw]
    rw [List.map_cons, hdrop, hstripx]
    rfl
  have hbase : (if "NO " ++ x = "" ∨ pyUpper (pyStrip ("NO " ++ x)) = "ALL" then
        ALL_SCENE_NAMES
      else
        List.foldl (fun sc ex => sc.erase ex)
          (if
              List.filter (fun it => !pyStartsWith (pyUpper it) "NO ")
                  (List.filter (fun it => decide (it ≠ ""))
                    (List.map pyStrip (pySplitChar ("NO " ++ x) ','))) ≠
                [] then
            List.filter (fun it => !pyStartsWith (pyUpper it) "NO ")
              (List.filter (fun it => decide (it ≠ ""))
                (List.map pyStrip (pySplitChar ("NO " ++ x) ',')))
          else ALL_SCENE_NAMES)
          (List.map (fun it => pyStrip (pyDrop it 3))
            (List.filter (fun it => pyStartsWith (pyUpper it) "NO ")
              (List.filter (fun it => decide (it ≠ ""))
                (List.map pyStrip (pySplitChar ("NO " ++ x) ','))))))
      = ALL_SCENE_NAMES := by
    rw [if_neg (by
      intro hor
      rcases hor with h | h
      · exact hne2 h
      · exact hup h)]
    rw [hitems, hincl, hexcl]
    rw [if_neg (by simp)]
    rw [List.foldl_cons, List.foldl_nil]
    exact List.erase_of_not_mem hx
  rw [hbase]
  rfl

/-- C8 (amended): `"ALL"` resolves to the full catalog, `"bj,feet"` to
exactly those two scenes, `"NO bj, NO feet"` to the catalog minus those
two.  For every filter string: a successful resolution contains only
catalog scenes (so a resolution whose final inclusion list keeps an
unknown name can never succeed), and every failure is a validation error
naming the catalog whose offending name is an unknown member of the parsed
inclusion list — NO-prefixed exclusions never trigger the error.  For
every unknown single-token name, the filter consisting of its NO-prefixed
exclusion is silently ignored and resolves to the full catalog. -/
theorem C8_scene_filter_resolution :
    resolve_scenes (some "ALL") none = Except.ok ALL_SCENE_NAMES ∧
    resolve_scenes (some "bj,feet") none = Except.ok ["bj", "feet"] ∧
    resolve_scenes (some "NO bj, NO feet") none
      = Except.ok ["topless_bj", "topless_feet", "topless_sex", "boobs_fondle",
                   "topless_boobs_fondle", "bottom", "topless_bottom",
                   "boobs_clothes_off"] ∧
    resolve_scenes (some "bj,zzz") none
      = Except.error ("Unknown scene: zzz. Valid scenes:\n  "
          ++ String.intercalate ", " ALL_SCENE_NAMES) ∧
    resolve_scenes (some "NO zzz2") none = Except.ok ALL_SCENE_NAMES ∧
    (∀ a b r, resolve_scenes a b = Except.ok r → ∀ s ∈ r, s ∈ ALL_SCENE_NAMES) ∧
    (∀ a b e, resolve_scenes a b = Except.error e →
      ∃ s, s ∉ ALL_SCENE_NAMES ∧
        (∃ sa, a = some sa ∧
          s ∈ ((((pySplitChar sa ',').map pyStrip).filter (fun it => it ≠ "")).filter
                (fun it => !(pyStartsWith (pyUpper it) "NO ")))) ∧
        e = "Unknown scene: " ++ s ++ ". Valid scenes:\n  "
            ++ String.intercalate ", " ALL_SCENE_NAMES) ∧
    (∀ x : String, x ∉ ALL_SCENE_NAMES → x ≠ "" →
      (∀ c ∈ x.data, isSpaceChar c = false) → ',' ∉ x.data →
      resolve_scenes (some ("NO " ++ x)) none = Except.ok ALL_SCENE_NAMES) :=
  ⟨rfl, rfl, rfl, rfl, rfl, resolve_scenes_sound, resolve_scenes_error_member,
   resolve_scenes_unknown_exclusion⟩

/-- C8 witness: the universal clauses of the amended claim exercised at
concrete inputs — the unknown-exclusion clause at the name `zzz3`, and the
soundness clause at the successful resolution of `"bj,feet"`. -/
theorem C8_scene_filter_resolution_witness :
    resolve_scenes (some ("NO " ++ "zzz3")) none = Except.ok ALL_SCENE_NAMES ∧
    (∀ s ∈ ["bj", "feet"], s ∈ ALL_SCENE_NAMES) := by
  constructor
  · exact C8_scene_filter_resolution.2.2.2.2.2.2.2 "zzz3" (by decide) (by decide)
      (by decide) (by decide)
  · exact C8_scene_filter_resolution.2.2.2.2.2.1 (some "bj,feet") none ["bj", "feet"]
      C8_scene_filter_resolution.2.1

/-- C5 counterexample: a ledger file holding the valid JSON text of an
empty object is not a ledger document, yet `_load` succeeds and keeps it
as-is; the very next `is_completed` call then raises `KeyError` on
`data["jobs"]` instead of behaving like the empty ledger (which answers
`false`).  This refutes "behaves as an empty ledger for all subsequent
operations" for valid JSON of the wrong shape. -/
theorem C5_counterexample :
    tracker_load "T0" (some (Except.ok (PyJson.obj []))) = PyJson.obj [] ∧
    raw_is_completed (tracker_load "T0" (some (Except.ok (PyJson.obj [])))) job0
      = Except.error (PyErr.keyError "jobs") ∧
    raw_is_completed (tracker_load "T0" none) job0 = Except.ok false := by
  refine ⟨rfl, rfl, rfl⟩

/-- C5 (amended): a ledger file that is absent, unreadable, or fails to
parse as JSON degrades to a fresh empty ledger — construction succeeds and
`is_completed` answers `false` for every job.  A file holding valid JSON is
kept verbatim, even when it is not ledger-shaped, and later operations may
then raise. -/
theorem C5_unparseable_degrades_to_empty (now : String) (job : Job) :
    raw_is_completed (tracker_load now none) job = Except.ok false ∧
    raw_is_completed (tracker_load now (some (Except.error ()))) job
      = Except.ok false := by
  constructor <;> rfl

/-- C9: with at least one completed-job duration sample this run and a
positive worker count, the logged estimate is exactly
mean duration × remaining ÷ parallelism; with zero samples only the
done/remaining counts are reported, and neither the zero sample count nor a
zero worker count is ever used as a divisor (the guard and `max(n, 1)`
prevent both). -/
theorem C9_eta_estimation (led : Ledger) (times : List ℚ) (total n : Nat) :
    (times = [] →
      log_eta led times total n
        = EtaReport.countOnly (count_completed led)
            ((total : ℤ) - (count_completed led : ℤ))) ∧
    (times ≠ [] → 1 ≤ n →
      log_eta led times total n
        = EtaReport.withEta (count_completed led)
            ((total : ℤ) - (count_completed led : ℤ))
            (times.sum / (times.length : ℚ))
            ((times.sum / (times.length : ℚ))
              * (((total : ℤ) - (count_completed led : ℤ) : ℤ) : ℚ) / (n : ℚ))) := by
  constructor
  · intro h
    subst h
    simp [log_eta]
  · intro h1 h2
    have hm : max n 1 = n := Nat.max_eq_left h2
    have hq : (n : ℚ) ⊔ 1 = (n : ℚ) := max_eq_left (by exact_mod_cast h2)
    cases times with
    | nil => exact absurd rfl h1
    | cons a ts => simp [log_eta, hm, hq]

/-- C9 witness: one 6-second sample, 10 jobs total, none completed in the
ledger, 2 workers. -/
theorem C9_eta_estimation_witness :
    log_eta ledEmpty [(6 : ℚ)] 10 2
      = EtaReport.withEta (count_completed ledEmpty)
          ((10 : ℤ) - (count_completed ledEmpty : ℤ))
          (([(6 : ℚ)].sum / (([(6 : ℚ)].length : Nat) : ℚ)))
          ((([(6 : ℚ)].sum / (([(6 : ℚ)].length : Nat) : ℚ)))
            * ((((10 : ℤ) - (count_completed ledEmpty : ℤ) : ℤ)) : ℚ) / ((2 : Nat) : ℚ)) :=
  (C9_eta_estimation ledEmpty [(6 : ℚ)] 10 2).2 (by simp) (by omega)

/-! ### Partitioning: counting lemmas -/

theorem count_join_jobs (L : List (List Job)) (x : Job) :
    L.flatten.count x = (L.map (fun g => g.count x)).sum := by
  induction L with
  | nil => simp
  | cons g rest ih => simp [List.count_append, ih]

theorem sum_map_add_nat (L : List Nat) (g h : Nat → Nat) :
    (L.map (fun k => g k + h k)).sum = (L.map g).sum + (L.map h).sum := by
  induction L with
  | nil => simp
  | cons a rest ih =>
    simp only [List.map_cons, List.sum_cons, ih]
    omega

theorem sum_range_ite_of_ge (a c : Nat) : ∀ n, n ≤ a →
    ((List.range n).map (fun k => if a = k then c else 0)).sum = 0 := by
  intro n
  induction n with
  | zero => intro _; simp
  | succ m ih =>
    intro h
    rw [List.range_succ]
    simp only [List.map_append, List.sum_append, List.map_cons, List.map_nil,
      List.sum_cons, List.sum_nil]
    have hne : a ≠ m := by omega
    rw [if_neg hne, ih (by omega)]
    omega

theorem sum_range_ite_of_lt (a c : Nat) : ∀ n, a < n →
    ((List.range n).map (fun k => if a = k then c else 0)).sum = c := by
  intro n
  induction n with
  | zero => intro h; omega
  | succ m ih =>
    intro h
    rw [List.range_succ]
    simp only [List.map_append, List.sum_append, List.map_cons, List.map_nil,
      List.sum_cons, List.sum_nil]
    by_cases ha : a = m
    · subst ha
      rw [if_pos rfl, sum_range_ite_of_ge a c a le_rfl]
      omega
    · rw [if_neg ha, ih (by omega)]
      omega

theorem dealIdx_count (n : Nat) (hn : 1 ≤ n) (x : Job) :
    ∀ (groups : List (List Job)) (i : Nat),
    ((List.range n).map (fun k => (dealIdx n k groups i).count x)).sum
      = (groups.map (fun g => g.count x)).sum := by
  intro groups
  induction groups with
  | nil =>
    intro i
    simp [dealIdx]
  | cons g rest ih =>
    intro i
    have hsplit : ((List.range n).map (fun k => (dealIdx n k (g :: rest) i).count x))
        = ((List.range n).map (fun k =>
            (if i % n = k then g.count x else 0) + (dealIdx n k rest (i + 1)).count x)) := by
      apply List.map_congr_left
      intro k _
      simp only [dealIdx, List.count_append]
      split <;> simp
    rw [hsplit, sum_map_add_nat,
      sum_range_ite_of_lt (i % n) (g.count x) n (Nat.mod_lt i (by omega)), ih (i + 1)]
    simp

theorem insertByChar_count (x : Job) : ∀ (acc : List (String × List Job)) (j : Job),
    (((insertByChar acc j).map Prod.snd).flatten).count x
      = ((acc.map Prod.snd).flatten).count x + (if j == x then 1 else 0) := by
  intro acc
  induction acc with
  | nil =>
    intro j
    simp [insertByChar, List.count_cons]
  | cons q rest ih =>
    obtain ⟨c, js⟩ := q
    intro j
    by_cases hc : c = j.character
    · simp only [insertByChar, if_pos hc, List.map_cons, List.flatten_cons,
        List.count_append, List.count_cons, List.count_nil]
      omega
    · simp only [insertByChar, if_neg hc, List.map_cons, List.flatten_cons,
        List.count_append, ih j]
      omega

theorem byChar_count (x : Job) : ∀ (jobs : List Job) (acc : List (String × List Job)),
    (((jobs.foldl insertByChar acc).map Prod.snd).flatten).count x
      = ((acc.map Prod.snd).flatten).count x + jobs.count x := by
  intro jobs
  induction jobs with
  | nil => intro acc; simp
  | cons j rest ih =>
    intro acc
    simp only [List.foldl_cons]
    rw [ih (insertByChar acc j), insertByChar_count x acc j, List.count_cons]
    omega

theorem join_filter_nonempty (L : List (List Job)) :
    (L.filter (fun g => !g.isEmpty)).flatten = L.flatten := by
  induction L with
  | nil => rfl
  | cons g rest ih =>
    by_cases hg : g.isEmpty
    · have hgnil : g = [] := List.isEmpty_iff.1 hg
      subst hgnil
      simp [List.filter_cons, ih]
    · have hgf : g.isEmpty = false := by
        rw [Bool.not_eq_true] at hg
        exact hg
      simp [List.filter_cons, hgf, ih]

/-! ### Partitioning: structural invariants of the character grouping -/

theorem insertByChar_chars : ∀ (acc : List (String × List Job)) (j : Job),
    (∀ p ∈ acc, ∀ jb ∈ p.2, jb.character = p.1) →
    ∀ p ∈ insertByChar acc j, ∀ jb ∈ p.2, jb.character = p.1 := by
  intro acc
  induction acc with
  | nil =>
    intro j _ p hp jb hjb
    simp only [insertByChar, List.mem_singleton] at hp
    subst hp
    simp only [List.mem_singleton] at hjb
    subst hjb
    rfl
  | cons q rest ih =>
    obtain ⟨c, js⟩ := q
    intro j hinv p hp jb hjb
    by_cases hc : c = j.character
    · simp only [insertByChar, if_pos hc] at hp
      rcases List.mem_cons.1 hp with hp | hp
      · subst hp
        simp only at hjb
        rcases List.mem_append.1 hjb with hjb | hjb
        · exact hinv (c, js) (List.mem_cons_self _ _) jb hjb
        · simp only [List.mem_singleton] at hjb
          subst hjb
          exact hc.symm
      · exact hinv p (List.mem_cons_of_mem _ hp) jb hjb
    · simp only [insertByChar, if_neg hc] at hp
      rcases List.mem_cons.1 hp with hp | hp
      · subst hp
        exact hinv (c, js) (List.mem_cons_self _ _) jb hjb
      · exact ih j (fun q hq => hinv q (List.mem_cons_of_mem _ hq)) p hp jb hjb

theorem insertByChar_keys (j : Job) : ∀ (acc : List (String × List Job)),
    (insertByChar acc j).map Prod.fst
      = if j.character ∈ acc.map Prod.fst then acc.map Prod.fst
        else acc.map Prod.fst ++ [j.character] := by
  intro acc
  induction acc with
  | nil => simp [insertByChar]
  | cons q rest ih =>
    obtain ⟨c, js⟩ := q
    by_cases hc : c = j.character
    · subst hc
      simp [insertByChar]
    · simp only [insertByChar, if_neg hc, List.map_cons, ih]
      by_cases hm : j.character ∈ rest.map Prod.fst
      · rw [if_pos hm, if_pos (List.mem_cons_of_mem _ hm)]
      · rw [if_neg hm, if_neg ?hng]
        · simp
        case hng =>
          intro hx
          rcases List.mem_cons.1 hx with hx | hx
          · exact hc hx.symm
          · exact hm hx

theorem insertByChar_nodup (j : Job) (acc : List (String × List Job))
    (h : ((acc.map Prod.fst) : List String).Nodup) :
    ((insertByChar acc j).map Prod.fst).Nodup := by
  rw [insertByChar_keys]
  by_cases hm : j.character ∈ acc.map Prod.fst
  · rw [if_pos hm]
    exact h
  · rw [if_neg hm]
    simp [List.nodup_append, h, List.disjoint_singleton, hm]

theorem byChar_inv_aux : ∀ (jobs : List Job) (acc : List (String × List Job)),
    ((acc.map Prod.fst).Nodup) →
    (∀ p ∈ acc, ∀ jb ∈ p.2, jb.character = p.1) →
    (((jobs.foldl insertByChar acc).map Prod.fst).Nodup ∧
     ∀ p ∈ jobs.foldl insertByChar acc, ∀ jb ∈ p.2, jb.character = p.1) := by
  intro jobs
  induction jobs with
  | nil => intro acc h1 h2; exact ⟨h1, h2⟩
  | cons j rest ih =>
    intro acc h1 h2
    exact ih (insertByChar acc j) (insertByChar_nodup j acc h1)
      (insertByChar_chars acc j h2)

theorem byChar_inv (jobs : List Job) :
    (((byChar jobs).map Prod.fst).Nodup) ∧
    ∀ p ∈ byChar jobs, ∀ jb ∈ p.2, jb.character = p.1 :=
  byChar_inv_aux jobs [] (by simp) (by simp)

theorem dealIdx_mem (n k : Nat) (x : Job) :
    ∀ (groups : List (List Job)) (i : Nat), x ∈ dealIdx n k groups i →
    ∃ d, ∃ hd : d < groups.length, (i + d) % n = k ∧ x ∈ groups.get ⟨d, hd⟩ := by
  intro groups
  induction groups with
  | nil => intro i hx; simp [dealIdx] at hx
  | cons g rest ih =>
    intro i hx
    simp only [dealIdx] at hx
    rcases List.mem_append.1 hx with hx | hx
    · by_cases hik : i % n = k
      · rw [if_pos hik] at hx
        exact ⟨0, by simp, by simpa using hik, by simpa using hx⟩
      · rw [if_neg hik] at hx
        simp at hx
    · obtain ⟨d, hd, hmod, hmem⟩ := ih (i + 1) hx
      refine ⟨d + 1, by simpa using Nat.succ_lt_succ hd, ?_, ?_⟩
      · have harith : i + (d + 1) = (i + 1) + d := by omega
        rw [harith]
        exact hmod
      · simpa using hmem

theorem byChar_char_index (jobs : List Job) (d1 d2 : Nat)
    (h1 : d1 < (byChar jobs).length) (h2 : d2 < (byChar jobs).length)
    (j1 j2 : Job)
    (hj1 : j1 ∈ ((byChar jobs).get ⟨d1, h1⟩).2)
    (hj2 : j2 ∈ ((byChar jobs).get ⟨d2, h2⟩).2)
    (hc : j1.character = j2.character) : d1 = d2 := by
  obtain ⟨hnd, hchars⟩ := byChar_inv jobs
  have c1 : j1.character = ((byChar jobs).get ⟨d1, h1⟩).1 :=
    hchars _ (List.get_mem _ _ _) j1 hj1
  have c2 : j2.character = ((byChar jobs).get ⟨d2, h2⟩).1 :=
    hchars _ (List.get_mem _ _ _) j2 hj2
  have hkey : ((byChar jobs).map Prod.fst).get ⟨d1, by simpa using h1⟩
      = ((byChar jobs).map Prod.fst).get ⟨d2, by simpa using h2⟩ := by
    rw [List.get_map, List.get_map]
    exact c1.symm.trans (hc.trans c2)
  have hfin := (List.Nodup.get_inj_iff hnd).1 hkey
  exact congrArg Fin.val hfin

/-- C2: for every job list and every worker count at least 1,
`distribute_jobs` returns groups whose concatenation is a permutation of
the input (every job lands in exactly one group, counted with
multiplicity), no returned group is empty, and two groups containing jobs
of the same character are the same group. -/
theorem C2_partitioning (jobs : List Job) (n : Nat) (hn : 1 ≤ n) :
    (distribute_jobs jobs n).flatten.Perm jobs ∧
    (∀ g ∈ distribute_jobs jobs n, g ≠ []) ∧
    (∀ g1 ∈ distribute_jobs jobs n, ∀ g2 ∈ distribute_jobs jobs n,
      (∃ j1 ∈ g1, ∃ j2 ∈ g2, j1.character = j2.character) → g1 = g2) := by
  refine ⟨?_, ?_, ?_⟩
  · rw [List.perm_iff_count]
    intro x
    have h0 : (distribute_jobs jobs n).flatten
        = ((List.range n).map
            (fun k => dealIdx n k ((byChar jobs).map Prod.snd) 0)).flatten := by
      simp only [distribute_jobs]
      exact join_filter_nonempty _
    rw [h0, count_join_jobs, List.map_map]
    have h1 : ((List.range n).map
          ((fun g => g.count x) ∘ fun k => dealIdx n k ((byChar jobs).map Prod.snd) 0)).sum
        = (((byChar jobs).map Prod.snd).map (fun g => g.count x)).sum :=
      dealIdx_count n hn x _ 0
    rw [h1, ← count_join_jobs]
    have h2 := byChar_count x jobs []
    simpa [byChar] using h2
  · intro g hg
    simp only [distribute_jobs] at hg
    have h := (List.mem_filter.1 hg).2
    intro hgnil
    subst hgnil
    simp at h
  · intro g1 hg1 g2 hg2 hex
    obtain ⟨j1, hj1, j2, hj2, hc⟩ := hex
    simp only [distribute_jobs] at hg1 hg2
    have hg1b := (List.mem_filter.1 hg1).1
    have hg2b := (List.mem_filter.1 hg2).1
    obtain ⟨k1, hk1r, hk1⟩ := List.mem_map.1 hg1b
    obtain ⟨k2, hk2r, hk2⟩ := List.mem_map.1 hg2b
    subst hk1
    subst hk2
    obtain ⟨d1, hd1, hm1, hmem1⟩ := dealIdx_mem n k1 j1 _ 0 hj1
    obtain ⟨d2, hd2, hm2, hmem2⟩ := dealIdx_mem n k2 j2 _ 0 hj2
    rw [Nat.zero_add] at hm1 hm2
    have hd1b : d1 < (byChar jobs).length := by simpa using hd1
    have hd2b : d2 < (byChar jobs).length := by simpa using hd2
    have e1 : ((byChar jobs).map Prod.snd).get ⟨d1, hd1⟩
        = ((byChar jobs).get ⟨d1, hd1b⟩).2 := by
      rw [List.get_map]
    have e2 : ((byChar jobs).map Prod.snd).get ⟨d2, hd2⟩
        = ((byChar jobs).get ⟨d2, hd2b⟩).2 := by
      rw [List.get_map]
    rw [e1] at hmem1
    rw [e2] at hmem2
    have hdd : d1 = d2 :=
      byChar_char_index jobs d1 d2 hd1b hd2b j1 j2 hmem1 hmem2 hc
    subst hdd
    have hkk : k1 = k2 := hm1.symm.trans hm2
    subst hkk
    rfl

/-- C2 witness: three jobs over two characters dealt onto two pods. -/
theorem C2_partitioning_witness :
    (1 : Nat) ≤ 2 ∧
    ((distribute_jobs jobsW 2).flatten.Perm jobsW ∧
     (∀ g ∈ distribute_jobs jobsW 2, g ≠ []) ∧
     (∀ g1 ∈ distribute_jobs jobsW 2, ∀ g2 ∈ distribute_jobs jobsW 2,
       (∃ j1 ∈ g1, ∃ j2 ∈ g2, j1.character = j2.character) → g1 = g2)) :=
  ⟨by omega, C2_partitioning jobsW 2 (by omega)⟩
